import Mathlib

/-!
Verification of the discrete-event simulation engine in `TP4/app.py`
("Puestos de Carga - Festival Rio Vivo").

Shallow embedding conventions:
* Python floats are modelled as exact rationals (`ℚ`).  The presentation-only
  `round(x, 4)` / `round(x, 2)` calls used when storing values into the state
  vector rows are omitted: they affect display precision only and no verified
  property mentions them.
* `random.random()` is modelled as an ambient stream `rnd : ℕ → ℚ` of draws,
  consumed in exactly the order the source calls `random.random()`.
* `math.log` is modelled as an ambient function `log : ℚ → ℚ`; theorems that
  need analytic facts about it (for instance `log x ≤ 0` for `0 < x ≤ 1`)
  take them as hypotheses.
* The `heapq` priority queue is a Python standard-library component, not code
  of this repository; it is modelled by its documented contract (`heappop`
  removes and returns the least element under `Evento.__lt__`): the queue is
  kept as a list ordered by the `Evento.__lt__` order via ordered insertion,
  and popping takes the head.  Since every event carries a distinct `_orden`
  the `__lt__` order is total and strict on any reachable queue, so the
  sequence of popped events is exactly the heap behaviour.
* The class-level counter `Evento._contador_global` is modelled as a per-run
  counter starting at 0; only the relative order of the values matters inside
  one run.
* Display-only row columns that no claim mentions (the raw RND draws, the
  device type of the arriving row, the inter-arrival columns) are omitted
  from the row record; all state-bearing columns are present.
* Row 0 stores its accumulator and average columns under the keys
  `"Acum/Promedio porcentaje puestos en uso"` WITHOUT the `(ponderado)`
  suffix, while every loop row uses the suffixed spelling.  The row record
  keeps one field per column plus the flag `tieneClavesPonderado` recording
  which spelling the row's dict holds; the summary lookup of the suffixed
  key is `Option`-valued, `none` modelling the `KeyError` the source raises
  when the key is absent.
-/

/-- Device types: the closed enumeration used by the simulator. -/
inductive TipoDispositivo
  | usbC
  | lightning
  | microUSB
deriving DecidableEq

/-- Hourly rates, from `tarifas = {"USB-C": 300, "Lightning": 500, "MicroUSB": 1000}`. -/
def tarifa : TipoDispositivo → ℚ
  | .usbC => 300
  | .lightning => 500
  | .microUSB => 1000

/-- Event kind together with its payload.  The source stores a kind string
plus an optional `data` tuple `(idx_servidor, tipo_dispositivo, tiempo_fin)`;
`data` is `None` exactly for `"arrival"` events and always a triple for the
other two kinds, so the pairing is embedded as a tagged variant. -/
inductive TipoEvento
  | arrival
  | endCharge (idx : ℕ) (tipo : TipoDispositivo) (tFin : ℚ)
  | endValidation (idx : ℕ) (tipo : TipoDispositivo) (tFin : ℚ)
deriving DecidableEq

/-- An event of the simulation (`class Evento`): occurrence time in minutes,
kind with payload, and the creation-sequence number `_orden` used to break
ties. -/
structure Evento where
  tiempo : ℚ
  tipo : TipoEvento
  orden : ℕ
deriving DecidableEq

/-- The strict order `Evento.__lt__` from the source: first by time, ties
broken by creation order. -/
def Evento.lt (a b : Evento) : Prop :=
  if a.tiempo = b.tiempo then a.orden < b.orden else a.tiempo < b.tiempo

instance (a b : Evento) : Decidable (Evento.lt a b) :=
  if h : a.tiempo = b.tiempo then
    decidable_of_iff (a.orden < b.orden) (by rw [Evento.lt, if_pos h])
  else
    decidable_of_iff (a.tiempo < b.tiempo) (by rw [Evento.lt, if_neg h])

/-- The reflexive companion of `Evento.lt`; a queue kept sorted by `leEvento`
pops elements in exactly the order `heapq` pops them under `Evento.__lt__`. -/
def leEvento (a b : Evento) : Prop := ¬ Evento.lt b a

instance : DecidableRel leEvento := fun _ _ => instDecidableNot

/-- Push into the pending-event queue (`heapq.heappush`), modelled by ordered
insertion under the `Evento.__lt__` order. -/
def pushEvento (e : Evento) (q : List Evento) : List Evento :=
  q.orderedInsert leEvento e

/-- Pop the least pending event (`heapq.heappop`): on the ordered-list model
this is the head of the queue. -/
def popMin (q : List Evento) : Option (Evento × List Evento) :=
  match q with
  | [] => none
  | e :: resto => some (e, resto)

/-- Charge-duration draw `seleccionar_tiempo_carga`: cumulative bands
`[0,0.50) ↦ 1h`, `[0.50,0.80) ↦ 2h`, `[0.80,0.95) ↦ 3h`, else `4h`.
Returns hours and the raw draw. -/
def seleccionar_tiempo_carga (u : ℚ) : ℚ × ℚ :=
  if u < 1/2 then (1, u)
  else if u < 4/5 then (2, u)
  else if u < 19/20 then (3, u)
  else (4, u)

/-- The stage strings stored in `servidores[i]["etapa"]`; the source docstring
mentions `"cargando"` and `"validando"`, though only `"cargando"` is ever
assigned. -/
inductive Etapa
  | cargando
  | validando
deriving DecidableEq

/-- One charging-station slot (`servidores[i]` in the source). -/
structure Servidor where
  ocupado : Bool
  device_type : Option TipoDispositivo
  etapa : Option Etapa
  fin_carga : Option ℚ
  fin_validacion : Option ℚ
  duracion_carga : Option ℚ
deriving DecidableEq

/-- The `"cargando"` stage marker. -/
def etapaCargando : Option Etapa := some .cargando

/-- A free station, as initialised by the source. -/
def servidorLibre : Servidor :=
  { ocupado := false, device_type := none, etapa := none,
    fin_carga := none, fin_validacion := none, duracion_carga := none }

/-- Replace the element at position `i` by `f` of it; positions outside the
list are left untouched (the source indexes `servidores[idx]`, and every
index stored in an event payload was produced by a valid enumeration, so the
out-of-range case is unreachable). -/
def modificarEn (f : Servidor → Servidor) : ℕ → List Servidor → List Servidor
  | _, [] => []
  | 0, s :: t => f s :: t
  | n + 1, s :: t => s :: modificarEn f n t

/-- Read the station at index `i` (source: `servidores[idx]`); out of range
returns the free station, which is unreachable for the indices the program
stores in events. -/
def servidorEn (l : List Servidor) (i : ℕ) : Servidor :=
  l.getD i servidorLibre

/-- Indices of the free stations in ascending order, from the comprehension
`[i for i, srv in enumerate(servidores) if not srv["ocupado"]]`, written as
a recursion carrying the enumeration index. -/
def idxLibresDesde (i : ℕ) : List Servidor → List ℕ
  | [] => []
  | s :: t => if s.ocupado then idxLibresDesde (i + 1) t
              else i :: idxLibresDesde (i + 1) t

/-- Free-station index list, `idx_libres` in the source. -/
def idxLibres (l : List Servidor) : List ℕ := idxLibresDesde 0 l

/-- Number of occupied stations (`sum(1 for srv in servidores if srv["ocupado"])`). -/
def cuentaOcupados (l : List Servidor) : ℕ := l.countP (·.ocupado)

/-- Row labels of the `"Evento"` column. -/
inductive EtiquetaEvento
  | inicioSimulacion
  | llegadaDispositivo
  | finCarga
  | finValidacion
deriving DecidableEq

/-- One row of the state vector (`fila` in the source).  Field order follows
the column list in the source header; display-only columns (raw RND draws,
arriving device type, inter-arrival columns) are omitted, and values are the
exact rationals the source would round for display. -/
structure Fila where
  iteraciones : ℕ
  reloj : ℚ
  evento : EtiquetaEvento
  cantDispositivos : ℕ
  porcentajeEnUso : ℚ
  acumPorcentajePonderado : ℚ
  promedioPorcentajePonderado : ℚ
  tieneClavesPonderado : Bool
  finCargaPuestos : List (Option ℚ)
  tiempoCargaPuestos : List (Option ℚ)
  estadoValidacionLibre : Bool
  colaValidacion : ℕ
  tiempoValidacionFila : ℚ
  finValidacionFila : Option ℚ
  acumTiempoUsbC : ℚ
  acumTiempoLightning : ℚ
  acumTiempoMicroUSB : ℚ
  recUsbC : ℚ
  recLightning : ℚ
  recMicroUSB : ℚ
  recaudacionTotal : ℚ
  aceptadas : ℕ
  rechazadas : ℕ
deriving DecidableEq

/-- Configuration of one run, together with the ambient random stream and
the logarithm function (see the header comment). -/
structure Params where
  T_max : ℚ
  N_max : ℕ
  media_interarribo : ℚ
  p_usb_c : ℚ
  p_lightning : ℚ
  p_microusb : ℚ
  tiempo_validacion : ℚ
  n_servidores : ℕ
  rnd : ℕ → ℚ
  log : ℚ → ℚ

/-- Full in-loop state of one simulation run. -/
structure SimState where
  eventos_futuros : List Evento
  orden : ℕ
  rndIdx : ℕ
  clock : ℚ
  evento_id : ℕ
  n_aceptadas : ℕ
  n_rechazadas : ℕ
  recaudacion_total : ℚ
  reloj_previo : ℚ
  n_ocupados_previo : ℕ
  acum_porcentaje_ponderado : ℚ
  acum_tiempo_ponderado : ℚ
  acum_time_usb_c : ℚ
  acum_time_lightning : ℚ
  acum_time_microusb : ℚ
  rec_usb_c : ℚ
  rec_lightning : ℚ
  rec_microusb : ℚ
  puesto_validacion_libre : Bool
  cola_validacion : List (ℕ × TipoDispositivo)
  servidores : List Servidor
  vector_estado : List Fila

/-- The inter-arrival time scheduled before the loop:
`-media_interarribo * log(1 - u)` at the first draw. -/
def interarriboInicial (P : Params) : ℚ :=
  -P.media_interarribo * P.log (1 - P.rnd 0)

/-- Row 0 (`fila0`), the "Inicio Simulacion" seed row. -/
def filaInicial (P : Params) : Fila :=
  { iteraciones := 0
    reloj := 0
    evento := .inicioSimulacion
    cantDispositivos := 0
    porcentajeEnUso := 0
    acumPorcentajePonderado := 0
    promedioPorcentajePonderado := 0
    tieneClavesPonderado := false
    finCargaPuestos := List.replicate P.n_servidores none
    tiempoCargaPuestos := List.replicate P.n_servidores none
    estadoValidacionLibre := true
    colaValidacion := 0
    tiempoValidacionFila := 0
    finValidacionFila := none
    acumTiempoUsbC := 0
    acumTiempoLightning := 0
    acumTiempoMicroUSB := 0
    recUsbC := 0
    recLightning := 0
    recMicroUSB := 0
    recaudacionTotal := 0
    aceptadas := 0
    rechazadas := 0 }

/-- The state just before the main loop: row 0 emitted, the first arrival
(at `interarribo0`, creation order 0) pushed, all accumulators zero. -/
def estadoInicial (P : Params) : SimState :=
  { eventos_futuros := [⟨interarriboInicial P, .arrival, 0⟩]
    orden := 1
    rndIdx := 1
    clock := 0
    evento_id := 0
    n_aceptadas := 0
    n_rechazadas := 0
    recaudacion_total := 0
    reloj_previo := 0
    n_ocupados_previo := 0
    acum_porcentaje_ponderado := 0
    acum_tiempo_ponderado := 0
    acum_time_usb_c := 0
    acum_time_lightning := 0
    acum_time_microusb := 0
    rec_usb_c := 0
    rec_lightning := 0
    rec_microusb := 0
    puesto_validacion_libre := true
    cola_validacion := []
    servidores := List.replicate P.n_servidores servidorLibre
    vector_estado := [filaInicial P] }

/-- Result of the event-kind dispatch: the updated mutable state plus the
row fields the dispatched branch fills in (`fila["Cola de validación"]`,
`fila["Tiempo validación"]`, `fila["Fin de validación"]` are branch-filled;
`none` means "left `None`, patched by the common epilogue"). -/
structure Rama where
  eventos : List Evento
  orden : ℕ
  rndIdx : ℕ
  servidores : List Servidor
  aceptadas : ℕ
  rechazadas : ℕ
  acum_u : ℚ
  acum_l : ℚ
  acum_m : ℚ
  rec_u : ℚ
  rec_l : ℚ
  rec_m : ℚ
  total : ℚ
  libre : Bool
  cola : List (ℕ × TipoDispositivo)
  etiqueta : EtiquetaEvento
  filaCola : Option ℕ
  filaTiempoValidacion : Option ℚ
  filaFinValidacion : Option ℚ

/-- Dispatch of the `"arrival"` branch of the loop body. -/
def ramaLlegada (P : Params) (s : SimState) (clock : ℚ) : Rama :=
  let u_device := P.rnd s.rndIdx
  let tipo_disp : TipoDispositivo :=
    if u_device < P.p_usb_c then .usbC
    else if u_device < P.p_usb_c + P.p_lightning then .lightning
    else .microUSB
  let u_tiempo := P.rnd (s.rndIdx + 1)
  let interarribo := -P.media_interarribo * P.log (1 - u_tiempo)
  let prox_llegada := clock + interarribo
  match idxLibres s.servidores with
  | idx_ser :: _ =>
    let u_carga := P.rnd (s.rndIdx + 2)
    let carga_horas := (seleccionar_tiempo_carga u_carga).1
    let dur_carga_min := carga_horas * 60
    let t_fin_carga := clock + dur_carga_min
    { eventos :=
        pushEvento ⟨prox_llegada, .arrival, s.orden + 1⟩
          (pushEvento ⟨t_fin_carga, .endCharge idx_ser tipo_disp t_fin_carga, s.orden⟩
            s.eventos_futuros)
      orden := s.orden + 2
      rndIdx := s.rndIdx + 3
      servidores :=
        modificarEn
          (fun srv =>
            { srv with ocupado := true, device_type := some tipo_disp,
                       etapa := etapaCargando, fin_carga := some t_fin_carga,
                       duracion_carga := some dur_carga_min })
          idx_ser s.servidores
      aceptadas := s.n_aceptadas + 1
      rechazadas := s.n_rechazadas
      acum_u := s.acum_time_usb_c
      acum_l := s.acum_time_lightning
      acum_m := s.acum_time_microusb
      rec_u := s.rec_usb_c
      rec_l := s.rec_lightning
      rec_m := s.rec_microusb
      total := s.recaudacion_total
      libre := s.puesto_validacion_libre
      cola := s.cola_validacion
      etiqueta := .llegadaDispositivo
      filaCola := none
      filaTiempoValidacion := none
      filaFinValidacion := none }
  | [] =>
    { eventos := pushEvento ⟨prox_llegada, .arrival, s.orden⟩ s.eventos_futuros
      orden := s.orden + 1
      rndIdx := s.rndIdx + 2
      servidores := s.servidores
      aceptadas := s.n_aceptadas
      rechazadas := s.n_rechazadas + 1
      acum_u := s.acum_time_usb_c
      acum_l := s.acum_time_lightning
      acum_m := s.acum_time_microusb
      rec_u := s.rec_usb_c
      rec_l := s.rec_lightning
      rec_m := s.rec_microusb
      total := s.recaudacion_total
      libre := s.puesto_validacion_libre
      cola := s.cola_validacion
      etiqueta := .llegadaDispositivo
      filaCola := none
      filaTiempoValidacion := none
      filaFinValidacion := none }

/-- Dispatch of the `"end_charge"` branch: attribute charge minutes and
revenue (guarded on the stored duration being present, as in the source),
clear the charge fields of the station, and feed the device to the
validation stand. -/
def ramaFinCarga (P : Params) (s : SimState) (clock : ℚ)
    (idx_ser : ℕ) (tipo_disp : TipoDispositivo) : Rama :=
  let durOpt := (servidorEn s.servidores idx_ser).duracion_carga
  let inc : ℚ := match durOpt with
    | none => 0
    | some d => tarifa tipo_disp * (d / 60)
  let incT : ℚ := match durOpt with
    | none => 0
    | some d => d
  let acum_u := if tipo_disp = .usbC then s.acum_time_usb_c + incT else s.acum_time_usb_c
  let acum_l := if tipo_disp = .lightning then s.acum_time_lightning + incT else s.acum_time_lightning
  let acum_m := if tipo_disp = .microUSB then s.acum_time_microusb + incT else s.acum_time_microusb
  let rec_u := if tipo_disp = .usbC then s.rec_usb_c + inc else s.rec_usb_c
  let rec_l := if tipo_disp = .lightning then s.rec_lightning + inc else s.rec_lightning
  let rec_m := if tipo_disp = .microUSB then s.rec_microusb + inc else s.rec_microusb
  let total := s.recaudacion_total + inc
  let servidores :=
    modificarEn
      (fun srv => { srv with etapa := none, fin_carga := none, duracion_carga := none })
      idx_ser s.servidores
  if s.puesto_validacion_libre then
    let t_fin_valid := clock + P.tiempo_validacion
    { eventos :=
        pushEvento ⟨t_fin_valid, .endValidation idx_ser tipo_disp t_fin_valid, s.orden⟩
          s.eventos_futuros
      orden := s.orden + 1
      rndIdx := s.rndIdx
      servidores := servidores
      aceptadas := s.n_aceptadas
      rechazadas := s.n_rechazadas
      acum_u := acum_u, acum_l := acum_l, acum_m := acum_m
      rec_u := rec_u, rec_l := rec_l, rec_m := rec_m
      total := total
      libre := false
      cola := s.cola_validacion
      etiqueta := .finCarga
      filaCola := some s.cola_validacion.length
      filaTiempoValidacion := some P.tiempo_validacion
      filaFinValidacion := some t_fin_valid }
  else
    let cola := s.cola_validacion ++ [(idx_ser, tipo_disp)]
    { eventos := s.eventos_futuros
      orden := s.orden
      rndIdx := s.rndIdx
      servidores := servidores
      aceptadas := s.n_aceptadas
      rechazadas := s.n_rechazadas
      acum_u := acum_u, acum_l := acum_l, acum_m := acum_m
      rec_u := rec_u, rec_l := rec_l, rec_m := rec_m
      total := total
      libre := false
      cola := cola
      etiqueta := .finCarga
      filaCola := some cola.length
      filaTiempoValidacion := some 0
      filaFinValidacion := none }

/-- Dispatch of the `"end_validation"` branch: fully free the originating
station; if the FIFO wait queue is non-empty, pop its front and schedule its
completion, leaving the busy flag untouched (the source assigns
`puesto_validacion_libre` in this handler only in the empty-queue branch; on
every reachable state the flag is already `False` here); with an empty queue
the stand becomes idle. -/
def ramaFinValidacion (P : Params) (s : SimState) (clock : ℚ)
    (idx_ser : ℕ) : Rama :=
  let servidores :=
    modificarEn
      (fun srv =>
        { srv with ocupado := false, device_type := none, etapa := none,
                   fin_validacion := none })
      idx_ser s.servidores
  match s.cola_validacion with
  | (next_idx, next_tipo) :: colaResto =>
    let t_fin_valid := clock + P.tiempo_validacion
    { eventos :=
        pushEvento ⟨t_fin_valid, .endValidation next_idx next_tipo t_fin_valid, s.orden⟩
          s.eventos_futuros
      orden := s.orden + 1
      rndIdx := s.rndIdx
      servidores := servidores
      aceptadas := s.n_aceptadas
      rechazadas := s.n_rechazadas
      acum_u := s.acum_time_usb_c, acum_l := s.acum_time_lightning, acum_m := s.acum_time_microusb
      rec_u := s.rec_usb_c, rec_l := s.rec_lightning, rec_m := s.rec_microusb
      total := s.recaudacion_total
      libre := s.puesto_validacion_libre
      cola := colaResto
      etiqueta := .finValidacion
      filaCola := some colaResto.length
      filaTiempoValidacion := some P.tiempo_validacion
      filaFinValidacion := some t_fin_valid }
  | [] =>
    { eventos := s.eventos_futuros
      orden := s.orden
      rndIdx := s.rndIdx
      servidores := servidores
      aceptadas := s.n_aceptadas
      rechazadas := s.n_rechazadas
      acum_u := s.acum_time_usb_c, acum_l := s.acum_time_lightning, acum_m := s.acum_time_microusb
      rec_u := s.rec_usb_c, rec_l := s.rec_lightning, rec_m := s.rec_microusb
      total := s.recaudacion_total
      libre := true
      cola := []
      etiqueta := .finValidacion
      filaCola := some 0
      filaTiempoValidacion := some 0
      filaFinValidacion := none }

/-- The event-kind dispatch of the loop body. -/
def ramaDe (P : Params) (s : SimState) (clock : ℚ) : TipoEvento → Rama
  | .arrival => ramaLlegada P s clock
  | .endCharge idx tipo _ => ramaFinCarga P s clock idx tipo
  | .endValidation idx _ _ => ramaFinValidacion P s clock idx

/-- The row emitted by one loop iteration, assembled from the dispatched
branch output and the epilogue scalars. -/
def filaNueva (evento_id : ℕ) (clock : ℚ) (r : Rama) (ocupados : ℕ)
    (porcentaje_en_uso acum_porcentaje promedio : ℚ) : Fila :=
  { iteraciones := evento_id
    reloj := clock
    evento := r.etiqueta
    cantDispositivos := ocupados
    porcentajeEnUso := porcentaje_en_uso
    acumPorcentajePonderado := acum_porcentaje
    promedioPorcentajePonderado := promedio
    tieneClavesPonderado := true
    finCargaPuestos := r.servidores.map (·.fin_carga)
    tiempoCargaPuestos := r.servidores.map (·.duracion_carga)
    estadoValidacionLibre := r.libre
    colaValidacion := r.filaCola.getD r.cola.length
    tiempoValidacionFila := (r.filaTiempoValidacion).getD 0
    finValidacionFila := r.filaFinValidacion
    acumTiempoUsbC := r.acum_u
    acumTiempoLightning := r.acum_l
    acumTiempoMicroUSB := r.acum_m
    recUsbC := r.rec_u
    recLightning := r.rec_l
    recMicroUSB := r.rec_m
    recaudacionTotal := r.total
    aceptadas := r.aceptadas
    rechazadas := r.rechazadas }

/-- Process one popped event: advance the clock, compute `delta_t`, dispatch
on the event kind, then run the common epilogue (occupancy, time-weighted
accumulators, remaining row columns) and append the finished row. -/
def procesar (P : Params) (s : SimState) (evento : Evento) (resto : List Evento) : SimState :=
  let clock := evento.tiempo
  let delta_t := clock - s.reloj_previo
  let evento_id := s.evento_id + 1
  let r : Rama := ramaDe P { s with eventos_futuros := resto } clock evento.tipo
  let ocupados := cuentaOcupados r.servidores
  let porcentaje_en_uso : ℚ :=
    if 0 < P.n_servidores then ((ocupados : ℚ) / (P.n_servidores : ℚ)) * 100 else 0
  let porcentaje_previo : ℚ :=
    if 0 < P.n_servidores then ((s.n_ocupados_previo : ℚ) / (P.n_servidores : ℚ)) * 100 else 0
  let ponderado_actual := porcentaje_previo * delta_t
  let acum_porcentaje :=
    if evento_id = 1 then ponderado_actual
    else s.acum_porcentaje_ponderado + ponderado_actual
  let acum_tiempo :=
    if evento_id = 1 then delta_t
    else s.acum_tiempo_ponderado + delta_t
  let promedio : ℚ :=
    if 0 < acum_tiempo then acum_porcentaje / acum_tiempo else 0
  let fila : Fila := filaNueva evento_id clock r ocupados porcentaje_en_uso acum_porcentaje promedio
  { eventos_futuros := r.eventos
    orden := r.orden
    rndIdx := r.rndIdx
    clock := clock
    evento_id := evento_id
    n_aceptadas := r.aceptadas
    n_rechazadas := r.rechazadas
    recaudacion_total := r.total
    reloj_previo := clock
    n_ocupados_previo := ocupados
    acum_porcentaje_ponderado := acum_porcentaje
    acum_tiempo_ponderado := acum_tiempo
    acum_time_usb_c := r.acum_u
    acum_time_lightning := r.acum_l
    acum_time_microusb := r.acum_m
    rec_usb_c := r.rec_u
    rec_lightning := r.rec_l
    rec_microusb := r.rec_m
    puesto_validacion_libre := r.libre
    cola_validacion := r.cola
    servidores := r.servidores
    vector_estado := s.vector_estado ++ [fila] }

/-- One test of the loop head: `none` means the loop stops (queue empty, the
event budget reached, or the next event past the horizon, in which case the
popped event is discarded unprocessed, exactly as the `break`). -/
def step (P : Params) (s : SimState) : Option SimState :=
  match popMin s.eventos_futuros with
  | none => none
  | some (evento, resto) =>
    if P.N_max ≤ s.evento_id then none
    else if P.T_max < evento.tiempo then none
    else some (procesar P s evento resto)

/-- Iterate the loop.  The `while` guard requires `evento_id < N_max` and
each iteration increments `evento_id` (starting from 0), so the loop runs at
most `N_max` iterations; `fuel = N_max` therefore reproduces it exactly. -/
def runLoop (P : Params) : ℕ → SimState → SimState
  | 0, s => s
  | fuel + 1, s =>
    match step P s with
    | none => s
    | some sNext => runLoop P fuel sNext

/-- The run summary dictionary (`resumen`); the display-only rounding of the
source is omitted. -/
structure Resumen where
  n_aceptadas : ℕ
  n_rechazadas : ℕ
  recaudacion_total : ℚ
  utilizacion_promedio : ℚ
deriving DecidableEq

/-- The final loop state of a run. -/
def estadoFinal (P : Params) : SimState := runLoop P P.N_max (estadoInicial P)

/-- The runtime error the engine can raise: the `KeyError` of reading the
summary key `"Promedio porcentaje puestos en uso (ponderado)"` from a row
that only carries the unsuffixed spelling (row 0). -/
inductive ErrorEjecucion
  | clavePromedioPonderadoAusente
deriving DecidableEq

/-- The dictionary lookup
`fila["Promedio porcentaje puestos en uso (ponderado)"]`: `none` models the
`KeyError` raised when the row carries only the unsuffixed key. -/
def leerPromedioPonderado (f : Fila) : Option ℚ :=
  if f.tieneClavesPonderado then some f.promedioPorcentajePonderado else none

/-- The simulation entry point: returns the state vector, the summary and
the last row, as the source function does.  `vector_estado[-1]` is modelled
with a default that is unreachable because the vector always contains row 0.
The summary read of the weighted-average key is fallible and fails exactly
when the last row is row 0 (a zero-event run), reproducing the `KeyError`
of the source at that line. -/
def simular_puestos_carga (P : Params) :
    Except ErrorEjecucion (List Fila × Resumen × Fila) :=
  let sf := runLoop P P.N_max (estadoInicial P)
  let ultima := sf.vector_estado.getLast?.getD (filaInicial P)
  match leerPromedioPonderado ultima with
  | none => .error .clavePromedioPonderadoAusente
  | some utilizacion_promedio =>
    .ok (sf.vector_estado,
      { n_aceptadas := sf.n_aceptadas
        n_rechazadas := sf.n_rechazadas
        recaudacion_total := sf.recaudacion_total
        utilizacion_promedio := utilizacion_promedio },
      ultima)

/-- The rows of a run (the state vector exists whether or not the final
summary read succeeds). -/
def filasDe (P : Params) : List Fila := (estadoFinal P).vector_estado

/-- Validation error messages of the form handler `index`; the inductive
stands for the two descriptive Spanish strings of the source. -/
inductive MensajeError
  | probabilidadesInvalidas
  | valoresNegativos
deriving DecidableEq

/-- The input validation performed by `index` on a POST: first the
probability check sets the message, then the negativity check overwrites it;
a message is returned exactly when one of the two conditions fired.
Parameter order follows the form-extraction order of the source. -/
def validarFormulario (T_max : ℚ) (N_max : ℤ) (media_interarribo tiempo_validacion
    p_usb_c p_lightning p_microusb : ℚ) (n_servidores : ℤ) : Option MensajeError :=
  let suma_probs := p_usb_c + p_lightning + p_microusb
  let e1 : Option MensajeError :=
    if 1/1000000 < |suma_probs - 1| ∨ p_usb_c < 0 ∨ p_lightning < 0 ∨ p_microusb < 0 then
      some .probabilidadesInvalidas
    else none
  if T_max < 0 ∨ N_max < 0 ∨ tiempo_validacion < 0 ∨ media_interarribo < 0 then
    some .valoresNegativos
  else e1

/-- The POST path of `index`: run the validation; on error render the error
(no simulation state is created), else run the simulation.  The outer
`Except` is the validation fast path; the inner one is the outcome of the
simulation call, a raised runtime error propagating out of the handler.
The integer fields are parsed by `int(...)` in the source and a negative
value never reaches the simulation (it is rejected above), so `Int.toNat`
is exact on every accepted input. -/
def indexPost (T_max : ℚ) (N_max : ℤ) (media_interarribo tiempo_validacion
    p_usb_c p_lightning p_microusb : ℚ) (n_servidores : ℤ)
    (rnd : ℕ → ℚ) (log : ℚ → ℚ) :
    Except MensajeError (Except ErrorEjecucion (List Fila × Resumen × Fila)) :=
  match validarFormulario T_max N_max media_interarribo tiempo_validacion
      p_usb_c p_lightning p_microusb n_servidores with
  | some e => .error e
  | none =>
    .ok (simular_puestos_carga
      { T_max := T_max
        N_max := N_max.toNat
        media_interarribo := media_interarribo
        p_usb_c := p_usb_c
        p_lightning := p_lightning
        p_microusb := p_microusb
        tiempo_validacion := tiempo_validacion
        n_servidores := n_servidores.toNat
        rnd := rnd
        log := log })

/-- A concrete demonstration run used to exercise the definitions: one
station, first arrival at time 0, charge of 60 minutes, validation lasting
100 minutes, and further arrivals at times 70 and 70 (a tie).  The random
stream and the logarithm model are explicit closed functions; `fun x => x - 1`
is non-positive on `(0,1]` as `math.log` is. -/
def Pdemo : Params :=
  { T_max := 1000
    N_max := 4
    media_interarribo := 1000
    p_usb_c := 1
    p_lightning := 0
    p_microusb := 0
    tiempo_validacion := 100
    n_servidores := 1
    rnd := fun i => if i = 2 then 7/100 else 0
    log := fun x => x - 1 }

/-- The demonstration configuration with a zero event budget. -/
def PdemoCero : Params := { Pdemo with N_max := 0 }

/-- Row `i` of the demonstration run (row 0 as the out-of-range default). -/
def filaDemo (i : ℕ) : Fila := ((filasDe Pdemo).get? i).getD (filaInicial Pdemo)

/-- The loop state of the demonstration run right after its ChargeComplete
event (iteration 2) was processed. -/
def estadoDemoTrasFinCarga : SimState := runLoop Pdemo 2 (estadoInicial Pdemo)

/-- The loop state of the demonstration run right after its first arrival
(iteration 1): station 0 is charging with a stored duration of 60 minutes. -/
def estadoDemoTrasLlegada : SimState := runLoop Pdemo 1 (estadoInicial Pdemo)

/-- Number of Arrival rows in a list of rows. -/
def cuentaLlegadas (l : List Fila) : ℕ :=
  l.countP (fun f => decide (f.evento = EtiquetaEvento.llegadaDispositivo))

/-! ### Lemmas about the event order and the queue model -/

/-- The source order `Evento.__lt__` is exactly the strict lexicographic
order on the pair (time, creation sequence). -/
theorem Evento.lt_iff (a b : Evento) :
    Evento.lt a b ↔ a.tiempo < b.tiempo ∨ (a.tiempo = b.tiempo ∧ a.orden < b.orden) := by
  unfold Evento.lt
  by_cases h : a.tiempo = b.tiempo
  · rw [if_pos h]
    constructor
    · intro ho; exact Or.inr ⟨h, ho⟩
    · rintro (ht | ⟨_, ho⟩)
      · rw [h] at ht; exact absurd ht (lt_irrefl _)
      · exact ho
  · rw [if_neg h]
    constructor
    · exact Or.inl
    · rintro (ht | ⟨he, _⟩)
      · exact ht
      · exact absurd he h

/-- The reflexive companion order, characterised lexicographically. -/
theorem leEvento_iff (a b : Evento) :
    leEvento a b ↔ a.tiempo < b.tiempo ∨ (a.tiempo = b.tiempo ∧ a.orden ≤ b.orden) := by
  unfold leEvento
  rw [Evento.lt_iff]
  constructor
  · intro h
    rcases lt_trichotomy a.tiempo b.tiempo with ht | ht | ht
    · exact Or.inl ht
    · refine Or.inr ⟨ht, ?_⟩
      by_contra ho
      exact h (Or.inr ⟨ht.symm, by omega⟩)
    · exact absurd (Or.inl ht) h
  · rintro (ht | ⟨he, ho⟩) h2
    · rcases h2 with h2 | ⟨h2e, _⟩
      · linarith
      · rw [h2e] at ht; exact lt_irrefl _ ht
    · rcases h2 with h2 | ⟨_, h2o⟩
      · rw [he] at h2; exact lt_irrefl _ h2
      · omega

instance : IsTotal Evento leEvento := by
  constructor
  intro a b
  rw [leEvento_iff, leEvento_iff]
  rcases lt_trichotomy a.tiempo b.tiempo with ht | ht | ht
  · exact Or.inl (Or.inl ht)
  · rcases Nat.le_total a.orden b.orden with ho | ho
    · exact Or.inl (Or.inr ⟨ht, ho⟩)
    · exact Or.inr (Or.inr ⟨ht.symm, ho⟩)
  · exact Or.inr (Or.inl ht)

instance : IsTrans Evento leEvento := by
  constructor
  intro a b c hab hbc
  rw [leEvento_iff] at hab hbc ⊢
  rcases hab with h1 | ⟨e1, o1⟩ <;> rcases hbc with h2 | ⟨e2, o2⟩
  · exact Or.inl (lt_trans h1 h2)
  · exact Or.inl (by rw [← e2]; exact h1)
  · exact Or.inl (by rw [e1]; exact h2)
  · exact Or.inr ⟨e1.trans e2, le_trans o1 o2⟩

/-- An event below another in the companion order occurs no later. -/
theorem leEvento_tiempo {a b : Evento} (h : leEvento a b) : a.tiempo ≤ b.tiempo := by
  rw [leEvento_iff] at h
  rcases h with h | ⟨h, _⟩
  · exact le_of_lt h
  · exact le_of_eq h

/-- Pushing preserves the queue ordering invariant. -/
theorem pushEvento_sorted {q : List Evento} (e : Evento) (h : q.Sorted leEvento) :
    (pushEvento e q).Sorted leEvento :=
  h.orderedInsert e q

/-- Membership through a push. -/
theorem mem_pushEvento {x e : Evento} {q : List Evento} :
    x ∈ pushEvento e q ↔ x = e ∨ x ∈ q :=
  List.mem_orderedInsert leEvento

/-! ### Lemmas about the station-pool helpers -/

/-- Elements of a pointwise update come from the list, possibly through `f`. -/
theorem mem_modificarEn (f : Servidor → Servidor) :
    ∀ (i : ℕ) (l : List Servidor) (x : Servidor), x ∈ modificarEn f i l →
      x ∈ l ∨ ∃ y, y ∈ l ∧ x = f y := by
  intro i l
  induction l generalizing i with
  | nil => intro x h; rw [modificarEn] at h; exact absurd h (List.not_mem_nil x)
  | cons s t ih =>
    intro x h
    cases i with
    | zero =>
      rw [modificarEn] at h
      rcases List.mem_cons.mp h with h | h
      · exact Or.inr ⟨s, List.mem_cons_self s t, h⟩
      · exact Or.inl (List.mem_cons_of_mem _ h)
    | succ n =>
      rw [modificarEn] at h
      rcases List.mem_cons.mp h with h | h
      · exact Or.inl (by rw [h]; exact List.mem_cons_self s t)
      · rcases ih n x h with h1 | ⟨y, hy, he⟩
        · exact Or.inl (List.mem_cons_of_mem _ h1)
        · exact Or.inr ⟨y, List.mem_cons_of_mem _ hy, he⟩

/-- A pointwise update is invisible to any projection it preserves. -/
theorem map_modificarEn {β : Type} (g : Servidor → β) (f : Servidor → Servidor)
    (h : ∀ x, g (f x) = g x) :
    ∀ (i : ℕ) (l : List Servidor), (modificarEn f i l).map g = l.map g := by
  intro i l
  induction l generalizing i with
  | nil => rw [modificarEn]
  | cons s t ih =>
    cases i with
    | zero => rw [modificarEn]; simp [h]
    | succ n => rw [modificarEn]; simp [ih n]

/-- The free-index list only depends on the occupancy flags, so an update
preserving them leaves it unchanged. -/
theorem idxLibresDesde_modificarEn (f : Servidor → Servidor)
    (h : ∀ x, (f x).ocupado = x.ocupado) :
    ∀ (l : List Servidor) (j i : ℕ),
      idxLibresDesde j (modificarEn f i l) = idxLibresDesde j l := by
  intro l
  induction l with
  | nil => intro j i; rw [modificarEn]
  | cons s t ih =>
    intro j i
    cases i with
    | zero => rw [modificarEn, idxLibresDesde, idxLibresDesde, h]
    | succ n => rw [modificarEn, idxLibresDesde, idxLibresDesde, ih (j + 1) n]

/-- Same fact at the exported `idxLibres`. -/
theorem idxLibres_modificarEn (f : Servidor → Servidor)
    (h : ∀ x, (f x).ocupado = x.ocupado) (i : ℕ) (l : List Servidor) :
    idxLibres (modificarEn f i l) = idxLibres l :=
  idxLibresDesde_modificarEn f h l 0 i

/-- The occupancy count only depends on the occupancy flags as well. -/
theorem cuentaOcupados_modificarEn (f : Servidor → Servidor)
    (h : ∀ x, (f x).ocupado = x.ocupado) :
    ∀ (i : ℕ) (l : List Servidor), cuentaOcupados (modificarEn f i l) = cuentaOcupados l := by
  intro i l
  induction l generalizing i with
  | nil => rw [modificarEn]
  | cons s t ih =>
    cases i with
    | zero => rw [modificarEn]; unfold cuentaOcupados; rw [List.countP_cons, List.countP_cons, h]
    | succ n => rw [modificarEn]; unfold cuentaOcupados; rw [List.countP_cons, List.countP_cons]; unfold cuentaOcupados at ih; rw [ih n]

/-- Reading back the updated slot: `f` of the old slot in range, the free
default out of range. -/
theorem servidorEn_modificarEn (f : Servidor → Servidor) :
    ∀ (i : ℕ) (l : List Servidor),
      servidorEn (modificarEn f i l) i
        = if i < l.length then f (servidorEn l i) else servidorLibre := by
  intro i l
  induction l generalizing i with
  | nil => cases i <;> rw [modificarEn] <;> simp [servidorEn]
  | cons s t ih =>
    cases i with
    | zero => rw [modificarEn]; simp [servidorEn]
    | succ n =>
      rw [modificarEn]
      simp only [servidorEn, List.getD_cons_succ, List.length_cons]
      rw [← servidorEn, ← servidorEn, ih n]
      by_cases h : n < t.length
      · rw [if_pos h, if_pos (by omega)]
      · rw [if_neg h, if_neg (by omega)]

/-- The charge-duration draw is at least one hour. -/
theorem seleccionar_tiempo_carga_pos (u : ℚ) : 1 ≤ (seleccionar_tiempo_carga u).1 := by
  unfold seleccionar_tiempo_carga
  split_ifs <;> norm_num

/-- A slot read either is an element of the pool or the out-of-range default. -/
theorem servidorEn_mem_or (l : List Servidor) (i : ℕ) :
    servidorEn l i ∈ l ∨ servidorEn l i = servidorLibre := by
  unfold servidorEn
  rw [List.getD_eq_get?]
  cases h : l.get? i with
  | none => exact Or.inr rfl
  | some x => exact Or.inl (List.get?_mem h)

/-! ### Run invariants -/

/-- Facts that hold of every emitted row. -/
structure FilaProp (f : Fila) : Prop where
  estadoCola : f.estadoValidacionLibre = true → f.colaValidacion = 0
  promedioDef : f.promedioPorcentajePonderado
    = if 0 < f.reloj then f.acumPorcentajePonderado / f.reloj else 0
  sumaRec : f.recaudacionTotal = f.recUsbC + f.recLightning + f.recMicroUSB

/-- Facts that relate each row to the row emitted just before it. -/
structure AdjFila (n : ℕ) (p q : Fila) : Prop where
  acumRec : q.acumPorcentajePonderado
    = p.acumPorcentajePonderado
      + (if 0 < n then ((p.cantDispositivos : ℚ) / (n : ℚ)) * 100 else 0) * (q.reloj - p.reloj)
  monoU : p.recUsbC ≤ q.recUsbC
  monoL : p.recLightning ≤ q.recLightning
  monoM : p.recMicroUSB ≤ q.recMicroUSB
  congelado : q.evento ≠ EtiquetaEvento.finCarga →
    q.recUsbC = p.recUsbC ∧ q.recLightning = p.recLightning
      ∧ q.recMicroUSB = p.recMicroUSB ∧ q.recaudacionTotal = p.recaudacionTotal
  conteo : q.aceptadas + q.rechazadas
    = p.aceptadas + p.rechazadas + (if q.evento = EtiquetaEvento.llegadaDispositivo then 1 else 0)

/-- The last emitted row mirrors the running accumulators of the state. -/
structure UltimaCoincide (s : SimState) (f : Fila) : Prop where
  reloj : f.reloj = s.clock
  cant : f.cantDispositivos = s.n_ocupados_previo
  acum : f.acumPorcentajePonderado = s.acum_porcentaje_ponderado
  recU : f.recUsbC = s.rec_usb_c
  recL : f.recLightning = s.rec_lightning
  recM : f.recMicroUSB = s.rec_microusb
  recT : f.recaudacionTotal = s.recaudacion_total
  acept : f.aceptadas = s.n_aceptadas
  rech : f.rechazadas = s.n_rechazadas

/-- The master loop invariant of one run. -/
structure InvSim (P : Params) (s : SimState) : Prop where
  reloj : s.reloj_previo = s.clock
  tiempoAcum : s.acum_tiempo_ponderado = s.clock
  inicio : s.evento_id = 0 → s.clock = 0 ∧ s.acum_porcentaje_ponderado = 0
  librecola : s.puesto_validacion_libre = true → s.cola_validacion = []
  suma : s.recaudacion_total = s.rec_usb_c + s.rec_lightning + s.rec_microusb
  durNoNeg : ∀ srv ∈ s.servidores, ∀ d, srv.duracion_carga = some d → 0 ≤ d
  noVacio : s.vector_estado ≠ []
  cabeza : s.vector_estado.head? = some (filaInicial P)
  ultima : ∀ f, s.vector_estado.getLast? = some f → UltimaCoincide s f
  filas : ∀ f ∈ s.vector_estado, FilaProp f
  cadena : List.Chain' (AdjFila P.n_servidores) s.vector_estado

/-- What each dispatched branch guarantees, relative to the pre-state. -/
structure RamaOK (s : SimState) (r : Rama) : Prop where
  suma : r.total = r.rec_u + r.rec_l + r.rec_m
  librecola : r.libre = true → r.cola = []
  monoU : s.rec_usb_c ≤ r.rec_u
  monoL : s.rec_lightning ≤ r.rec_l
  monoM : s.rec_microusb ≤ r.rec_m
  congelado : r.etiqueta ≠ EtiquetaEvento.finCarga →
    r.rec_u = s.rec_usb_c ∧ r.rec_l = s.rec_lightning
      ∧ r.rec_m = s.rec_microusb ∧ r.total = s.recaudacion_total
  conteo : r.aceptadas + r.rechazadas
    = s.n_aceptadas + s.n_rechazadas + (if r.etiqueta = EtiquetaEvento.llegadaDispositivo then 1 else 0)
  filaCola : r.filaCola.getD r.cola.length = r.cola.length
  durNoNeg : ∀ srv ∈ r.servidores, ∀ d, srv.duracion_carga = some d → 0 ≤ d

/-- The arrival branch meets the branch contract. -/
theorem ramaLlegada_ok (P : Params) (s : SimState) (clock : ℚ)
    (hsuma : s.recaudacion_total = s.rec_usb_c + s.rec_lightning + s.rec_microusb)
    (hlibre : s.puesto_validacion_libre = true → s.cola_validacion = [])
    (hdur : ∀ srv ∈ s.servidores, ∀ d, srv.duracion_carga = some d → 0 ≤ d) :
    RamaOK s (ramaLlegada P s clock) := by
  unfold ramaLlegada
  cases hidx : idxLibres s.servidores with
  | nil =>
    refine ⟨hsuma, hlibre, le_refl _, le_refl _, le_refl _, ?_, ?_, ?_, ?_⟩
    · intro _; exact ⟨rfl, rfl, rfl, rfl⟩
    · simp
      omega
    · simp
    · exact hdur
  | cons idx restoIdx =>
    refine ⟨hsuma, hlibre, le_refl _, le_refl _, le_refl _, ?_, ?_, ?_, ?_⟩
    · intro _; exact ⟨rfl, rfl, rfl, rfl⟩
    · simp
      omega
    · simp
    · intro srv hmem d hd
      rcases mem_modificarEn _ _ _ _ hmem with hm | ⟨y, _, hy⟩
      · exact hdur srv hm d hd
      · rw [hy] at hd
        simp only at hd
        have h1 : (1 : ℚ) ≤ (seleccionar_tiempo_carga (P.rnd (s.rndIdx + 2))).1 :=
          seleccionar_tiempo_carga_pos _
        rw [Option.some_inj] at hd
        rw [← hd]
        positivity

/-- The charge-completion branch meets the branch contract. -/
theorem ramaFinCarga_ok (P : Params) (s : SimState) (clock : ℚ)
    (idx : ℕ) (tipo : TipoDispositivo)
    (hsuma : s.recaudacion_total = s.rec_usb_c + s.rec_lightning + s.rec_microusb)
    (hdur : ∀ srv ∈ s.servidores, ∀ d, srv.duracion_carga = some d → 0 ≤ d) :
    RamaOK s (ramaFinCarga P s clock idx tipo) := by
  have hinc : 0 ≤ (match (servidorEn s.servidores idx).duracion_carga with
      | none => (0 : ℚ)
      | some d => tarifa tipo * (d / 60)) := by
    cases hcase : (servidorEn s.servidores idx).duracion_carga with
    | none => simp
    | some d =>
      have hd : 0 ≤ d := by
        rcases servidorEn_mem_or s.servidores idx with hm | he
        · exact hdur _ hm d hcase
        · rw [he] at hcase
          simp [servidorLibre] at hcase
      have ht : 0 ≤ tarifa tipo := by cases tipo <;> simp [tarifa]
      simp only
      positivity
  have hdurNuevo : ∀ srv ∈ modificarEn
      (fun srv => { srv with etapa := none, fin_carga := none, duracion_carga := none })
      idx s.servidores, ∀ d, srv.duracion_carga = some d → 0 ≤ d := by
    intro srv hmem d hd
    rcases mem_modificarEn _ _ _ _ hmem with hm | ⟨y, _, hy⟩
    · exact hdur srv hm d hd
    · rw [hy] at hd
      simp at hd
  unfold ramaFinCarga
  by_cases hl : s.puesto_validacion_libre = true
  · rw [if_pos hl]
    refine ⟨?_, ?_, ?_, ?_, ?_, ?_, ?_, ?_, ?_⟩
    · simp only
      cases tipo <;> simp <;> linarith [hsuma]
    · simp
    · simp only
      cases tipo <;> simp <;> linarith [hinc]
    · simp only
      cases tipo <;> simp <;> linarith [hinc]
    · simp only
      cases tipo <;> simp <;> linarith [hinc]
    · intro h; exact absurd rfl h
    · simp
    · simp
    · exact hdurNuevo
  · rw [if_neg hl]
    refine ⟨?_, ?_, ?_, ?_, ?_, ?_, ?_, ?_, ?_⟩
    · simp only
      cases tipo <;> simp <;> linarith [hsuma]
    · simp
    · simp only
      cases tipo <;> simp <;> linarith [hinc]
    · simp only
      cases tipo <;> simp <;> linarith [hinc]
    · simp only
      cases tipo <;> simp <;> linarith [hinc]
    · intro h; exact absurd rfl h
    · simp
    · simp
    · exact hdurNuevo

/-- The validation-completion branch meets the branch contract. -/
theorem ramaFinValidacion_ok (P : Params) (s : SimState) (clock : ℚ) (idx : ℕ)
    (hsuma : s.recaudacion_total = s.rec_usb_c + s.rec_lightning + s.rec_microusb)
    (hlibre : s.puesto_validacion_libre = true → s.cola_validacion = [])
    (hdur : ∀ srv ∈ s.servidores, ∀ d, srv.duracion_carga = some d → 0 ≤ d) :
    RamaOK s (ramaFinValidacion P s clock idx) := by
  have hdurNuevo : ∀ srv ∈ modificarEn
      (fun srv => { srv with ocupado := false, device_type := none, etapa := none,
                             fin_validacion := none })
      idx s.servidores, ∀ d, srv.duracion_carga = some d → 0 ≤ d := by
    intro srv hmem d hd
    rcases mem_modificarEn _ _ _ _ hmem with hm | ⟨y, hymem, hy⟩
    · exact hdur srv hm d hd
    · rw [hy] at hd
      simp only at hd
      exact hdur y hymem d hd
  unfold ramaFinValidacion
  cases hc : s.cola_validacion with
  | cons siguiente colaResto =>
    obtain ⟨next_idx, next_tipo⟩ := siguiente
    refine ⟨hsuma, ?_, le_refl _, le_refl _, le_refl _, ?_, ?_, ?_, ?_⟩
    · intro h
      have h2 := hlibre h
      rw [hc] at h2
      exact absurd h2 (List.cons_ne_nil _ _)
    · intro _; exact ⟨rfl, rfl, rfl, rfl⟩
    · simp
    · simp
    · exact hdurNuevo
  | nil =>
    refine ⟨hsuma, ?_, le_refl _, le_refl _, le_refl _, ?_, ?_, ?_, ?_⟩
    · intro _; rfl
    · intro _; exact ⟨rfl, rfl, rfl, rfl⟩
    · simp
    · simp
    · exact hdurNuevo

/-- Dispatch preserves the branch contract. -/
theorem ramaDe_ok (P : Params) (s : SimState) (clock : ℚ) (tipo : TipoEvento)
    (hsuma : s.recaudacion_total = s.rec_usb_c + s.rec_lightning + s.rec_microusb)
    (hlibre : s.puesto_validacion_libre = true → s.cola_validacion = [])
    (hdur : ∀ srv ∈ s.servidores, ∀ d, srv.duracion_carga = some d → 0 ≤ d) :
    RamaOK s (ramaDe P s clock tipo) := by
  cases tipo with
  | arrival => exact ramaLlegada_ok P s clock hsuma hlibre hdur
  | endCharge idx t tf => exact ramaFinCarga_ok P s clock idx t hsuma hdur
  | endValidation idx t tf => exact ramaFinValidacion_ok P s clock idx hsuma hlibre hdur

/-- Processing any event preserves the master invariant. -/
theorem inv_procesar (P : Params) (s : SimState) (e : Evento) (resto : List Evento)
    (h : InvSim P s) : InvSim P (procesar P s e resto) := by
  obtain ⟨hrel, htac, hini, hlib, hsum, hdur, hnov, hcab, hult, hfil, hcad⟩ := h
  have hok : RamaOK { s with eventos_futuros := resto }
      (ramaDe P { s with eventos_futuros := resto } e.tiempo e.tipo) :=
    ramaDe_ok P _ e.tiempo e.tipo hsum hlib hdur
  obtain ⟨oksuma, oklibre, okU, okL, okM, okcong, okcnt, okcola, okdur⟩ := hok
  dsimp only at oksuma oklibre okU okL okM okcong okcnt okcola okdur
  have hT : (if s.evento_id + 1 = 1 then e.tiempo - s.reloj_previo
      else s.acum_tiempo_ponderado + (e.tiempo - s.reloj_previo)) = e.tiempo := by
    by_cases hid : s.evento_id = 0
    · rw [if_pos (by omega), hrel, (hini hid).1]
      ring
    · rw [if_neg (by omega), htac, hrel]
      ring
  simp only [procesar]
  refine ⟨?_, ?_, ?_, ?_, ?_, ?_, ?_, ?_, ?_, ?_, ?_⟩
  · rfl
  · exact hT
  · intro h0
    exact absurd h0 (Nat.succ_ne_zero _)
  · exact oklibre
  · exact oksuma
  · exact okdur
  · simp
  · rw [List.head?_append, hcab]
    rfl
  · intro f hf
    rw [List.getLast?_concat] at hf
    have hfe := Option.some.inj hf
    rw [← hfe]
    exact ⟨rfl, rfl, rfl, rfl, rfl, rfl, rfl, rfl, rfl⟩
  · intro f hf
    rcases List.mem_append.mp hf with hf | hf
    · exact hfil f hf
    · rw [List.mem_singleton] at hf
      subst hf
      refine ⟨?_, ?_, ?_⟩
      · intro hl
        dsimp only [filaNueva] at hl ⊢
        rw [okcola, oklibre hl]
        rfl
      · dsimp only [filaNueva]
        rw [hT]
      · dsimp only [filaNueva]
        exact oksuma
  · apply List.chain'_append.mpr
    refine ⟨hcad, List.chain'_singleton _, ?_⟩
    intro x hx y hy
    simp only [List.head?_cons, Option.mem_def, Option.some.injEq] at hy
    rw [← hy]
    have hux := hult x hx
    refine ⟨?_, ?_, ?_, ?_, ?_, ?_⟩
    · dsimp only [filaNueva]
      rw [hux.acum, hux.cant, hux.reloj]
      by_cases hid : s.evento_id = 0
      · rw [if_pos (by omega), hrel, (hini hid).2, (hini hid).1]
        ring
      · rw [if_neg (by omega), hrel]
    · dsimp only [filaNueva]
      rw [hux.recU]
      exact okU
    · dsimp only [filaNueva]
      rw [hux.recL]
      exact okL
    · dsimp only [filaNueva]
      rw [hux.recM]
      exact okM
    · intro hne
      dsimp only [filaNueva] at hne ⊢
      obtain ⟨c1, c2, c3, c4⟩ := okcong hne
      exact ⟨by rw [c1, hux.recU], by rw [c2, hux.recL], by rw [c3, hux.recM],
             by rw [c4, hux.recT]⟩
    · dsimp only [filaNueva]
      rw [hux.acept, hux.rech]
      exact okcnt

/-- The pre-loop state satisfies the master invariant. -/
theorem inv_base (P : Params) : InvSim P (estadoInicial P) := by
  refine ⟨rfl, rfl, fun _ => ⟨rfl, rfl⟩, fun _ => rfl, by simp [estadoInicial], ?_, ?_, rfl, ?_, ?_, ?_⟩
  · intro srv hm d hd
    rw [List.eq_of_mem_replicate hm] at hd
    simp [servidorLibre] at hd
  · simp [estadoInicial]
  · intro f hf
    simp only [estadoInicial, List.getLast?_singleton, Option.some.injEq] at hf
    rw [← hf]
    exact ⟨rfl, rfl, rfl, rfl, rfl, rfl, rfl, rfl, rfl⟩
  · intro f hf
    simp only [estadoInicial, List.mem_singleton] at hf
    subst hf
    refine ⟨fun _ => rfl, ?_, ?_⟩
    · simp [filaInicial]
    · simp [filaInicial]
  · exact List.chain'_singleton _

/-- One accepted loop iteration preserves the master invariant. -/
theorem inv_step (P : Params) (s s' : SimState) (hs : step P s = some s')
    (h : InvSim P s) : InvSim P s' := by
  unfold step at hs
  cases hq : s.eventos_futuros with
  | nil => rw [hq] at hs; simp [popMin] at hs
  | cons e resto =>
    rw [hq] at hs
    simp only [popMin] at hs
    split_ifs at hs
    rw [← Option.some.inj hs]
    exact inv_procesar P s e resto h

/-- Iterating the loop preserves the master invariant. -/
theorem inv_runLoop (P : Params) (fuel : ℕ) (s : SimState)
    (h : InvSim P s) : InvSim P (runLoop P fuel s) := by
  induction fuel generalizing s with
  | zero => exact h
  | succ f ih =>
    rw [runLoop]
    cases hst : step P s with
    | none => exact h
    | some sNext => exact ih sNext (inv_step P s sNext hst h)

/-- The final state of every run satisfies the master invariant. -/
theorem inv_final (P : Params) : InvSim P (estadoFinal P) :=
  inv_runLoop P P.N_max (estadoInicial P) (inv_base P)

/-- The rows of a run are the state vector of the final state. -/
theorem filasDe_eq (P : Params) : filasDe P = (estadoFinal P).vector_estado := rfl

/-! ### Timing invariants (event times never precede the clock) -/

/-- Analytic side conditions on the ambient random stream and logarithm:
draws lie in `[0,1)` (as `random.random()` guarantees), the logarithm is
non-positive on `(0,1]` (as `math.log` is), and the configured mean
inter-arrival time and validation duration are non-negative. -/
def ParamsValidos (P : Params) : Prop :=
  0 ≤ P.media_interarribo ∧ 0 ≤ P.tiempo_validacion
    ∧ (∀ i, 0 ≤ P.rnd i ∧ P.rnd i < 1)
    ∧ (∀ x, 0 < x → x ≤ 1 → P.log x ≤ 0)

/-- Every generated inter-arrival time is non-negative. -/
theorem interarribo_nonneg (P : Params) (hP : ParamsValidos P) (i : ℕ) :
    0 ≤ -P.media_interarribo * P.log (1 - P.rnd i) := by
  obtain ⟨hm, _, hr, hl⟩ := hP
  have h1 : 0 < 1 - P.rnd i := by have := (hr i).2; linarith
  have h2 : 1 - P.rnd i ≤ 1 := by have := (hr i).1; linarith
  rw [neg_mul_comm]
  exact mul_nonneg hm (by linarith [hl _ h1 h2])

/-- Pushing an event no earlier than the clock keeps all queue times at or
after the clock. -/
theorem tiempos_pushEvento {clock : ℚ} {q : List Evento} {e0 : Evento}
    (h0 : clock ≤ e0.tiempo) (hq : ∀ x ∈ q, clock ≤ x.tiempo) :
    ∀ x ∈ pushEvento e0 q, clock ≤ x.tiempo := by
  intro x hx
  rcases mem_pushEvento.mp hx with he | hxq
  · rw [he]; exact h0
  · exact hq x hxq

/-- Each dispatched branch only schedules events at or after the clock and
keeps the queue ordered. -/
theorem ramaDe_tiempos (P : Params) (s : SimState) (clock : ℚ) (tipo : TipoEvento)
    (hP : ParamsValidos P)
    (hq : ∀ x ∈ s.eventos_futuros, clock ≤ x.tiempo)
    (hsort : s.eventos_futuros.Sorted leEvento) :
    (∀ x ∈ (ramaDe P s clock tipo).eventos, clock ≤ x.tiempo)
      ∧ (ramaDe P s clock tipo).eventos.Sorted leEvento := by
  have htv : clock ≤ clock + P.tiempo_validacion := by
    have := hP.2.1; linarith
  cases tipo with
  | arrival =>
    simp only [ramaDe]
    unfold ramaLlegada
    cases hidx : idxLibres s.servidores with
    | nil =>
      constructor
      · exact tiempos_pushEvento
          (by have := interarribo_nonneg P hP (s.rndIdx + 1); simp only; linarith) hq
      · exact pushEvento_sorted _ hsort
    | cons idx restoIdx =>
      constructor
      · refine tiempos_pushEvento
          (by have := interarribo_nonneg P hP (s.rndIdx + 1); simp only; linarith)
          (tiempos_pushEvento ?_ hq)
        have h1 : (1 : ℚ) ≤ (seleccionar_tiempo_carga (P.rnd (s.rndIdx + 2))).1 :=
          seleccionar_tiempo_carga_pos _
        simp only
        nlinarith
      · exact pushEvento_sorted _ (pushEvento_sorted _ hsort)
  | endCharge idx t tf =>
    simp only [ramaDe]
    unfold ramaFinCarga
    by_cases hl : s.puesto_validacion_libre = true
    · rw [if_pos hl]
      exact ⟨tiempos_pushEvento htv hq, pushEvento_sorted _ hsort⟩
    · rw [if_neg hl]
      exact ⟨hq, hsort⟩
  | endValidation idx t tf =>
    simp only [ramaDe]
    unfold ramaFinValidacion
    cases hc : s.cola_validacion with
    | cons siguiente colaResto =>
      obtain ⟨ni, nt⟩ := siguiente
      exact ⟨tiempos_pushEvento htv hq, pushEvento_sorted _ hsort⟩
    | nil => exact ⟨hq, hsort⟩

/-- The timing invariant: pending events never precede the clock, the queue
is ordered, and the emitted clock column is non-decreasing. -/
structure InvT (P : Params) (s : SimState) : Prop where
  tiempos : ∀ e ∈ s.eventos_futuros, s.clock ≤ e.tiempo
  ordenada : s.eventos_futuros.Sorted leEvento
  relojes : List.Chain' (fun p q : Fila => p.reloj ≤ q.reloj) s.vector_estado

/-- Processing the head of the queue preserves the timing invariant. -/
theorem invT_procesar (P : Params) (s : SimState) (e : Evento) (resto : List Evento)
    (hP : ParamsValidos P) (hInv : InvSim P s) (hT : InvT P s)
    (hq : s.eventos_futuros = e :: resto) :
    InvT P (procesar P s e resto) := by
  have hresto : ∀ x ∈ resto, e.tiempo ≤ x.tiempo := by
    intro x hx
    have hsort := hT.ordenada
    rw [hq] at hsort
    exact leEvento_tiempo (List.rel_of_sorted_cons hsort x hx)
  have hrestoSort : resto.Sorted leEvento := by
    have hsort := hT.ordenada
    rw [hq] at hsort
    exact hsort.of_cons
  have hce : s.clock ≤ e.tiempo :=
    hT.tiempos e (by rw [hq]; exact List.mem_cons_self e resto)
  have hbr := ramaDe_tiempos P { s with eventos_futuros := resto } e.tiempo e.tipo hP
    (by dsimp only; exact hresto) (by dsimp only; exact hrestoSort)
  simp only [procesar]
  refine ⟨hbr.1, hbr.2, ?_⟩
  apply List.chain'_append.mpr
  refine ⟨hT.relojes, List.chain'_singleton _, ?_⟩
  intro x hx y hy
  simp only [List.head?_cons, Option.mem_def, Option.some.injEq] at hy
  rw [← hy]
  have hux := hInv.ultima x hx
  dsimp only [filaNueva]
  rw [hux.reloj]
  exact hce

/-- One accepted loop iteration preserves the timing invariant. -/
theorem invT_step (P : Params) (s s' : SimState) (hP : ParamsValidos P)
    (hs : step P s = some s') (hInv : InvSim P s) (hT : InvT P s) : InvT P s' := by
  unfold step at hs
  cases hq : s.eventos_futuros with
  | nil => rw [hq] at hs; simp [popMin] at hs
  | cons e resto =>
    rw [hq] at hs
    simp only [popMin] at hs
    split_ifs at hs
    rw [← Option.some.inj hs]
    exact invT_procesar P s e resto hP hInv hT hq

/-- Iterating the loop preserves the timing invariant. -/
theorem invT_runLoop (P : Params) (fuel : ℕ) (s : SimState) (hP : ParamsValidos P)
    (hInv : InvSim P s) (hT : InvT P s) : InvT P (runLoop P fuel s) := by
  induction fuel generalizing s with
  | zero => exact hT
  | succ f ih =>
    rw [runLoop]
    cases hst : step P s with
    | none => exact hT
    | some sNext => exact ih sNext (inv_step P s sNext hst hInv) (invT_step P s sNext hP hst hInv hT)

/-- The pre-loop state satisfies the timing invariant. -/
theorem invT_base (P : Params) (hP : ParamsValidos P) : InvT P (estadoInicial P) := by
  refine ⟨?_, ?_, List.chain'_singleton _⟩
  · intro x hx
    simp only [estadoInicial, List.mem_singleton] at hx
    rw [hx]
    exact interarribo_nonneg P hP 0
  · exact List.sorted_singleton _

/-- The final state of a run satisfies the timing invariant. -/
theorem invT_final (P : Params) (hP : ParamsValidos P) : InvT P (estadoFinal P) :=
  invT_runLoop P P.N_max (estadoInicial P) hP (inv_base P) (invT_base P hP)

/-- From the pairwise counter recurrence and the seed row, the running
counters at row `i` equal the number of Arrival rows among rows `0..i`. -/
theorem conteo_de_cadena (l : List Fila)
    (h0 : ∀ f, l.head? = some f →
      f.aceptadas = 0 ∧ f.rechazadas = 0 ∧ f.evento ≠ EtiquetaEvento.llegadaDispositivo)
    (hc : List.Chain' (fun p q : Fila => q.aceptadas + q.rechazadas
      = p.aceptadas + p.rechazadas
        + (if q.evento = EtiquetaEvento.llegadaDispositivo then 1 else 0)) l) :
    ∀ i (hi : i < l.length),
      (l.get ⟨i, hi⟩).aceptadas + (l.get ⟨i, hi⟩).rechazadas
        = cuentaLlegadas (l.take (i + 1)) := by
  intro i
  induction i with
  | zero =>
    intro hi
    have hget : l.get? 0 = some (l.get ⟨0, hi⟩) := List.get?_eq_get hi
    rw [List.get?_zero] at hget
    obtain ⟨ha, hr, hne⟩ := h0 _ hget
    have htake : l.take 1 = [l.get ⟨0, hi⟩] := by
      cases l with
      | nil => exact absurd hi (by simp)
      | cons a t => rfl
    rw [ha, hr, htake]
    unfold cuentaLlegadas
    rw [List.countP_cons]
    simp only [List.get_eq_getElem] at hne
    simp [hne]
  | succ n ih =>
    intro hi
    have hn : n < l.length := by omega
    have hadj := List.chain'_iff_get.mp hc n (by omega)
    have hget : l.get? (n + 1) = some (l.get ⟨n + 1, hi⟩) := List.get?_eq_get hi
    have htake : l.take (n + 2) = l.take (n + 1) ++ [l.get ⟨n + 1, hi⟩] := by
      rw [List.take_succ]
      rw [← List.get?_eq_getElem?, hget]
      rfl
    have hsing : List.countP (fun f => decide (f.evento = EtiquetaEvento.llegadaDispositivo))
        [l.get ⟨n + 1, hi⟩]
        = if (l.get ⟨n + 1, hi⟩).evento = EtiquetaEvento.llegadaDispositivo then 1 else 0 := by
      rw [List.countP_cons]
      simp
    rw [htake]
    unfold cuentaLlegadas
    rw [List.countP_append]
    unfold cuentaLlegadas at ih
    rw [← ih hn, hsing, hadj]

/-- Out-of-range slot reads give the free default. -/
theorem servidorEn_fuera (l : List Servidor) (i : ℕ) (h : ¬ i < l.length) :
    servidorEn l i = servidorLibre := by
  unfold servidorEn
  rw [List.getD_eq_get?, List.get?_eq_none.mpr (by omega)]
  rfl

/-- If the loop-head test halts, iterating does nothing, whatever the fuel:
in particular a popped event past the horizon is discarded with no row
emitted and no state transition. -/
theorem runLoop_de_detencion (P : Params) (s : SimState) (fuel : ℕ)
    (h : step P s = none) : runLoop P fuel s = s := by
  cases fuel with
  | zero => rfl
  | succ f => rw [runLoop, h]

/-! ### Claims -/

/-- C10: at every emitted row the elapsed-time accumulator used as the
weighted-average denominator equals the current clock (the per-event
`delta_t` values telescope from time 0), so the reported weighted average
equals the accumulated percentage-time area divided by the clock, and is
reported as 0 when that elapsed time is not positive. -/
theorem evs_C10 (P : Params) :
    (estadoFinal P).acum_tiempo_ponderado = (estadoFinal P).clock
    ∧ ∀ f ∈ filasDe P,
        f.promedioPorcentajePonderado
          = if 0 < f.reloj then f.acumPorcentajePonderado / f.reloj else 0 := by
  have hinv := inv_final P
  refine ⟨hinv.tiempoAcum, ?_⟩
  intro f hf
  rw [filasDe_eq] at hf
  exact (hinv.filas f hf).promedioDef

section
attribute [local semireducible] Rat.add Rat.mul Rat.sub Rat.inv
set_option maxRecDepth 10000

/-- C10 witness at a concrete run and row. -/
theorem evs_C10_witness :
    (filaDemo 2).promedioPorcentajePonderado
      = if 0 < (filaDemo 2).reloj
        then (filaDemo 2).acumPorcentajePonderado / (filaDemo 2).reloj else 0 :=
  (evs_C10 Pdemo).2 (filaDemo 2) (by decide)

end

/-- C6: at every snapshot row of every run the Validation Stand invariant
holds (reported "Libre" implies empty FIFO wait queue); and on a
ValidationComplete whose state has the stand busy and the queue non-empty
(the only combination reachable in a run, by the first conjunct's
invariant), the stand immediately pops the front item, remains busy with
it, and schedules its completion — the handler leaves the busy flag
untouched, exactly as the source does. -/
theorem evs_C6 (P : Params) :
    (∀ f ∈ filasDe P, f.estadoValidacionLibre = true → f.colaValidacion = 0)
    ∧ (∀ (s : SimState) (clock : ℚ) (idx next_idx : ℕ) (next_tipo : TipoDispositivo)
        (colaResto : List (ℕ × TipoDispositivo)),
        s.puesto_validacion_libre = false →
        s.cola_validacion = (next_idx, next_tipo) :: colaResto →
          (ramaFinValidacion P s clock idx).libre = false
          ∧ (ramaFinValidacion P s clock idx).cola = colaResto
          ∧ (⟨clock + P.tiempo_validacion,
              TipoEvento.endValidation next_idx next_tipo (clock + P.tiempo_validacion),
              s.orden⟩ : Evento) ∈ (ramaFinValidacion P s clock idx).eventos) := by
  constructor
  · have hinv := inv_final P
    intro f hf he
    rw [filasDe_eq] at hf
    exact (hinv.filas f hf).estadoCola he
  · intro s clock idx next_idx next_tipo colaResto hocupado hc
    unfold ramaFinValidacion
    rw [hc]
    exact ⟨hocupado, rfl, mem_pushEvento.mpr (Or.inl rfl)⟩

section
attribute [local semireducible] Rat.add Rat.mul Rat.sub Rat.inv
set_option maxRecDepth 10000

/-- C6 witness at a concrete run, row and queue state. -/
theorem evs_C6_witness :
    (filaDemo 0).colaValidacion = 0
    ∧ (ramaFinValidacion Pdemo
        { estadoInicial Pdemo with
            puesto_validacion_libre := false
            cola_validacion := [(0, TipoDispositivo.usbC)] }
        0 0).libre = false :=
  ⟨(evs_C6 Pdemo).1 (filaDemo 0) (by decide) (by decide),
   ((evs_C6 Pdemo).2
      { estadoInicial Pdemo with
          puesto_validacion_libre := false
          cola_validacion := [(0, TipoDispositivo.usbC)] }
      0 0 0 TipoDispositivo.usbC [] rfl rfl).1⟩

end

/-- C2: for consecutive rows of any run with a positive station count, the
time-weighted occupancy accumulator advances by the occupancy percentage of
the previous row (the count that held before this event) times the elapsed
`delta_t`, and the reported average is the accumulator divided by the
elapsed time. -/
theorem evs_C2 (P : Params) (i : ℕ) (f g : Fila)
    (hn : 0 < P.n_servidores)
    (hf : (filasDe P).get? i = some f)
    (hg : (filasDe P).get? (i + 1) = some g) :
    g.acumPorcentajePonderado
      = f.acumPorcentajePonderado
        + ((f.cantDispositivos : ℚ) / (P.n_servidores : ℚ)) * 100 * (g.reloj - f.reloj)
    ∧ (0 < g.reloj → g.promedioPorcentajePonderado = g.acumPorcentajePonderado / g.reloj) := by
  have hinv := inv_final P
  have hcad : List.Chain' (AdjFila P.n_servidores) (filasDe P) := by
    rw [filasDe_eq]
    exact hinv.cadena
  obtain ⟨hfl, hfe⟩ := List.get?_eq_some.mp hf
  obtain ⟨hgl, hge⟩ := List.get?_eq_some.mp hg
  have hadj := List.chain'_iff_get.mp hcad i (by omega)
  rw [hfe, hge] at hadj
  constructor
  · have hh := hadj.acumRec
    rw [if_pos hn] at hh
    exact hh
  · intro hr
    have hmem : g ∈ filasDe P := by
      rw [← hge]
      exact List.get_mem _ _ _
    rw [filasDe_eq] at hmem
    rw [(hinv.filas g hmem).promedioDef, if_pos hr]

section
attribute [local semireducible] Rat.add Rat.mul Rat.sub Rat.inv
set_option maxRecDepth 10000

/-- C2 witness at a concrete run and a concrete pair of consecutive rows. -/
theorem evs_C2_witness :
    (filaDemo 2).acumPorcentajePonderado
      = (filaDemo 1).acumPorcentajePonderado
        + (((filaDemo 1).cantDispositivos : ℚ) / (Pdemo.n_servidores : ℚ)) * 100
          * ((filaDemo 2).reloj - (filaDemo 1).reloj)
    ∧ (0 < (filaDemo 2).reloj →
        (filaDemo 2).promedioPorcentajePonderado
          = (filaDemo 2).acumPorcentajePonderado / (filaDemo 2).reloj) :=
  evs_C2 Pdemo 1 (filaDemo 1) (filaDemo 2) (by decide) (by decide) (by decide)

end

/-- C7: at every row of every run the accepted plus rejected counters equal
the number of Arrival rows emitted so far (each processed Arrival increments
exactly one of the two), and the arrival branch always schedules the next
Arrival event, whether the device was accepted or rejected. -/
theorem evs_C7 (P : Params) :
    (∀ i (hi : i < (filasDe P).length),
      ((filasDe P).get ⟨i, hi⟩).aceptadas + ((filasDe P).get ⟨i, hi⟩).rechazadas
        = cuentaLlegadas ((filasDe P).take (i + 1)))
    ∧ (∀ (s : SimState) (clock : ℚ),
        ∃ o, (⟨clock + -P.media_interarribo * P.log (1 - P.rnd (s.rndIdx + 1)),
              TipoEvento.arrival, o⟩ : Evento) ∈ (ramaLlegada P s clock).eventos) := by
  have hinv := inv_final P
  constructor
  · apply conteo_de_cadena
    · intro f hf
      have hcb : (filasDe P).head? = some (filaInicial P) := by
        rw [filasDe_eq]
        exact hinv.cabeza
      rw [hcb] at hf
      rw [← Option.some.inj hf]
      exact ⟨rfl, rfl, fun hx => by cases hx⟩
    · have hcad : List.Chain' (AdjFila P.n_servidores) (filasDe P) := by
        rw [filasDe_eq]
        exact hinv.cadena
      exact hcad.imp (fun a b h => h.conteo)
  · intro s clock
    unfold ramaLlegada
    cases hidx : idxLibres s.servidores with
    | nil => exact ⟨s.orden, mem_pushEvento.mpr (Or.inl rfl)⟩
    | cons idx restoIdx => exact ⟨s.orden + 1, mem_pushEvento.mpr (Or.inl rfl)⟩

section
attribute [local semireducible] Rat.add Rat.mul Rat.sub Rat.inv
set_option maxRecDepth 10000

/-- C7 witness at a concrete run and row (row 3: one accepted, one
rejected, two Arrival rows so far). -/
theorem evs_C7_witness :
    ((filasDe Pdemo).get ⟨3, by decide⟩).aceptadas
        + ((filasDe Pdemo).get ⟨3, by decide⟩).rechazadas
      = cuentaLlegadas ((filasDe Pdemo).take 4) :=
  (evs_C7 Pdemo).1 3 (by decide)

end

/-- C8: at every row the total revenue equals the sum of the three per-type
revenues; across consecutive rows each per-type revenue is non-decreasing
and changes only on ChargeComplete rows; and the ChargeComplete branch adds
exactly `rate_per_hour * hours` (`tarifa * (d / 60)`) for the stored charge
duration `d` of the completing station. -/
theorem evs_C8 (P : Params) :
    (∀ f ∈ filasDe P, f.recaudacionTotal = f.recUsbC + f.recLightning + f.recMicroUSB)
    ∧ List.Chain' (fun p q : Fila =>
        (p.recUsbC ≤ q.recUsbC ∧ p.recLightning ≤ q.recLightning
          ∧ p.recMicroUSB ≤ q.recMicroUSB)
        ∧ (q.evento ≠ EtiquetaEvento.finCarga →
            q.recUsbC = p.recUsbC ∧ q.recLightning = p.recLightning
              ∧ q.recMicroUSB = p.recMicroUSB ∧ q.recaudacionTotal = p.recaudacionTotal))
        (filasDe P)
    ∧ (∀ (s : SimState) (clock : ℚ) (idx : ℕ) (tipo : TipoDispositivo) (d : ℚ),
        (servidorEn s.servidores idx).duracion_carga = some d →
          (ramaFinCarga P s clock idx tipo).total
            = s.recaudacion_total + tarifa tipo * (d / 60)) := by
  have hinv := inv_final P
  refine ⟨?_, ?_, ?_⟩
  · intro f hf
    rw [filasDe_eq] at hf
    exact (hinv.filas f hf).sumaRec
  · have hcad : List.Chain' (AdjFila P.n_servidores) (filasDe P) := by
      rw [filasDe_eq]
      exact hinv.cadena
    exact hcad.imp (fun a b h => ⟨⟨h.monoU, h.monoL, h.monoM⟩, h.congelado⟩)
  · intro s clock idx tipo d hd
    simp only [ramaFinCarga, hd]
    split_ifs <;> rfl

section
attribute [local semireducible] Rat.add Rat.mul Rat.sub Rat.inv
set_option maxRecDepth 10000

/-- C8 witness at a concrete run: row-level sum fact plus the concrete
revenue increment of a ChargeComplete (60 stored minutes of USB-C). -/
theorem evs_C8_witness :
    (filaDemo 2).recaudacionTotal
      = (filaDemo 2).recUsbC + (filaDemo 2).recLightning + (filaDemo 2).recMicroUSB
    ∧ (ramaFinCarga Pdemo estadoDemoTrasLlegada 60 0 TipoDispositivo.usbC).total
        = estadoDemoTrasLlegada.recaudacion_total
          + tarifa TipoDispositivo.usbC * (60 / 60) :=
  ⟨(evs_C8 Pdemo).1 (filaDemo 2) (by decide),
   (evs_C8 Pdemo).2.2 estadoDemoTrasLlegada 60 0 TipoDispositivo.usbC 60 (by decide)⟩

end

/-- C9: the loop-head test halts exactly when the queue is exhausted, the
event budget is reached, or the next popped event is past the horizon; in
every halting case iterating further changes nothing (the past-horizon
event is discarded unprocessed: no row, no transition); and under the
analytic side conditions the emitted clock column is non-decreasing, that
is, events are processed in non-decreasing time order. -/
theorem evs_C9 (P : Params) :
    (∀ s : SimState, step P s = none ↔
      (s.eventos_futuros = [] ∨ P.N_max ≤ s.evento_id
        ∨ ∃ e resto, popMin s.eventos_futuros = some (e, resto) ∧ P.T_max < e.tiempo))
    ∧ (∀ (s : SimState) (fuel : ℕ), step P s = none → runLoop P fuel s = s)
    ∧ (ParamsValidos P →
        List.Chain' (fun p q : Fila => p.reloj ≤ q.reloj) (filasDe P)) := by
  refine ⟨?_, ?_, ?_⟩
  · intro s
    cases hq : s.eventos_futuros with
    | nil =>
      unfold step popMin
      rw [hq]
      simp
    | cons e resto =>
      unfold step popMin
      rw [hq]
      simp only
      split_ifs with h1 h2
      · exact iff_of_true rfl (Or.inr (Or.inl h1))
      · exact iff_of_true rfl (Or.inr (Or.inr ⟨e, resto, rfl, h2⟩))
      · apply iff_of_false (by simp)
        rintro (h | h | ⟨e2, r2, hpm, ht⟩)
        · exact absurd h (by simp)
        · exact h1 h
        · have hpair := Option.some.inj hpm
          injection hpair with he hr
          rw [← he] at ht
          exact h2 ht
  · exact fun s fuel h => runLoop_de_detencion P s fuel h
  · intro hP
    rw [filasDe_eq]
    exact (invT_final P hP).relojes

section
attribute [local semireducible] Rat.add Rat.mul Rat.sub Rat.inv
set_option maxRecDepth 10000

/-- C9 witness: the non-decreasing clock column on a concrete run with
tied event times, discharging the analytic side conditions. -/
theorem evs_C9_witness :
    List.Chain' (fun p q : Fila => p.reloj ≤ q.reloj) (filasDe Pdemo) :=
  (evs_C9 Pdemo).2.2
    ⟨by norm_num [Pdemo], by norm_num [Pdemo],
     fun i => by
       constructor
       · show (0 : ℚ) ≤ if i = 2 then 7/100 else 0
         split <;> norm_num
       · show (if i = 2 then (7 : ℚ)/100 else 0) < 1
         split <;> norm_num,
     fun x h1 h2 => by
       show x - 1 ≤ 0
       linarith⟩

end

/-- C4 (code bug): the claim follows the spec (a zero-event run is not a
fault), but the code contradicts it: on a run whose first loop test already
halts, the last row is row 0, which spells the accumulator and average keys
without the `(ponderado)` suffix, so the summary read of
`vector_estado[-1]["Promedio porcentaje puestos en uso (ponderado)"]`
raises `KeyError` (the modelled `Except.error`) instead of returning; the
snapshot list itself is intact and holds exactly the sequence-0 start row. -/
theorem evs_C4 (P : Params)
    (h : P.N_max = 0 ∨ P.T_max < interarriboInicial P) :
    simular_puestos_carga P
        = Except.error ErrorEjecucion.clavePromedioPonderadoAusente
    ∧ (estadoFinal P).vector_estado = [filaInicial P] := by
  have hstop : runLoop P P.N_max (estadoInicial P) = estadoInicial P := by
    rcases h with h0 | hT
    · rw [h0]
      rfl
    · apply runLoop_de_detencion
      show step P (estadoInicial P) = none
      unfold step estadoInicial popMin
      simp only
      by_cases hN : P.N_max ≤ 0
      · rw [if_pos hN]
      · rw [if_neg hN, if_pos hT]
  constructor
  · unfold simular_puestos_carga
    rw [hstop]
    rfl
  · unfold estadoFinal
    rw [hstop]
    rfl

section
attribute [local semireducible] Rat.add Rat.mul Rat.sub Rat.inv
set_option maxRecDepth 10000

/-- C4 witness: the concrete zero-budget run hits the `KeyError` path. -/
theorem evs_C4_witness :
    simular_puestos_carga PdemoCero
        = Except.error ErrorEjecucion.clavePromedioPonderadoAusente
    ∧ (estadoFinal PdemoCero).vector_estado = [filaInicial PdemoCero] :=
  evs_C4 PdemoCero (Or.inl rfl)

end

/-- C3: the source order on events is exactly the lexicographic order on
(time, creation sequence); pushing preserves the queue ordering; and on an
ordered queue with distinct creation numbers, `popMin` returns an event
strictly below every remaining event in that order — under a time tie, the
first-created event is popped first. -/
theorem evs_C3 :
    (∀ a b : Evento, Evento.lt a b
        ↔ (a.tiempo < b.tiempo ∨ (a.tiempo = b.tiempo ∧ a.orden < b.orden)))
    ∧ (∀ (e : Evento) (q : List Evento),
        q.Sorted leEvento → (pushEvento e q).Sorted leEvento)
    ∧ (∀ (q : List Evento) (e : Evento) (resto : List Evento),
        q.Sorted leEvento → q.Pairwise (fun a b => a.orden ≠ b.orden) →
        popMin q = some (e, resto) →
        ∀ x ∈ resto, e.tiempo < x.tiempo
          ∨ (e.tiempo = x.tiempo ∧ e.orden < x.orden)) := by
  refine ⟨Evento.lt_iff, fun e q h => pushEvento_sorted e h, ?_⟩
  intro q e resto hsort hdist hpop x hx
  cases q with
  | nil => simp [popMin] at hpop
  | cons e0 r0 =>
    simp only [popMin, Option.some.injEq] at hpop
    injection hpop with he hr
    have hle : leEvento e0 x := by
      apply List.rel_of_sorted_cons hsort
      rw [hr]
      exact hx
    rw [leEvento_iff] at hle
    rw [← he]
    rcases hle with h | ⟨hteq, hord⟩
    · exact Or.inl h
    · refine Or.inr ⟨hteq, ?_⟩
      have hne : e0.orden ≠ x.orden := by
        apply (List.pairwise_cons.mp hdist).1
        rw [hr]
        exact hx
      omega

section
attribute [local semireducible] Rat.add Rat.mul Rat.sub Rat.inv
set_option maxRecDepth 10000

/-- C3 witness: a concrete ordered queue with an exact time tie; the
first-created of the two tied events is popped and precedes the other. -/
theorem evs_C3_witness :
    (⟨5, TipoEvento.arrival, 0⟩ : Evento).tiempo
        < (⟨5, TipoEvento.arrival, 1⟩ : Evento).tiempo
    ∨ ((⟨5, TipoEvento.arrival, 0⟩ : Evento).tiempo
          = (⟨5, TipoEvento.arrival, 1⟩ : Evento).tiempo
        ∧ (⟨5, TipoEvento.arrival, 0⟩ : Evento).orden
          < (⟨5, TipoEvento.arrival, 1⟩ : Evento).orden) :=
  evs_C3.2.2
    [⟨5, TipoEvento.arrival, 0⟩, ⟨5, TipoEvento.arrival, 1⟩, ⟨8, TipoEvento.arrival, 2⟩]
    ⟨5, TipoEvento.arrival, 0⟩
    [⟨5, TipoEvento.arrival, 1⟩, ⟨8, TipoEvento.arrival, 2⟩]
    (by decide) (by decide) rfl
    ⟨5, TipoEvento.arrival, 1⟩ (by decide)

end

/-- C1 (amended): processing a ChargeComplete event clears the station
charge fields (`etapa`, `fin_carga`, `duracion_carga`) but leaves `ocupado`
unchanged and the free-station list `idx_libres` exactly as it was — the
station does NOT become eligible for `find_free`; it is freed only when its
ValidationComplete event is processed, which resets `ocupado`; the onward
validation is tracked by the Validation Stand, never in the station record. -/
theorem evs_C1 (P : Params) (s : SimState) (e : Evento) (resto : List Evento)
    (idx : ℕ) (tipo : TipoDispositivo) (tFin : ℚ) :
    (e.tipo = TipoEvento.endCharge idx tipo tFin →
      (servidorEn (procesar P s e resto).servidores idx).etapa = none
      ∧ (servidorEn (procesar P s e resto).servidores idx).fin_carga = none
      ∧ (servidorEn (procesar P s e resto).servidores idx).duracion_carga = none
      ∧ (servidorEn (procesar P s e resto).servidores idx).ocupado
          = (servidorEn s.servidores idx).ocupado
      ∧ idxLibres (procesar P s e resto).servidores = idxLibres s.servidores)
    ∧ (e.tipo = TipoEvento.endValidation idx tipo tFin →
      (servidorEn (procesar P s e resto).servidores idx).ocupado = false) := by
  constructor
  · intro he
    have hserv : (procesar P s e resto).servidores
        = modificarEn
            (fun srv => { srv with etapa := none, fin_carga := none, duracion_carga := none })
            idx s.servidores := by
      simp only [procesar, ramaDe, he]
      unfold ramaFinCarga
      split_ifs <;> rfl
    refine ⟨?_, ?_, ?_, ?_, ?_⟩
    · rw [hserv, servidorEn_modificarEn]
      split_ifs <;> rfl
    · rw [hserv, servidorEn_modificarEn]
      split_ifs <;> rfl
    · rw [hserv, servidorEn_modificarEn]
      split_ifs <;> rfl
    · rw [hserv, servidorEn_modificarEn]
      split_ifs with h
      · rfl
      · rw [servidorEn_fuera s.servidores idx h]
    · rw [hserv, idxLibres_modificarEn]
      intro x
      rfl
  · intro he
    have hserv : (procesar P s e resto).servidores
        = modificarEn
            (fun srv => { srv with ocupado := false, device_type := none, etapa := none,
                                   fin_validacion := none })
            idx s.servidores := by
      simp only [procesar, ramaDe, he]
      unfold ramaFinValidacion
      cases s.cola_validacion with
      | nil => rfl
      | cons siguiente colaResto => rfl
    rw [hserv, servidorEn_modificarEn]
    split_ifs <;> rfl

section
attribute [local semireducible] Rat.add Rat.mul Rat.sub Rat.inv
set_option maxRecDepth 10000

/-- C1 counterexample to the claim as stated: in the demonstration run, the
ChargeComplete row (iteration 2) clears the charge fields of station 0, yet
`ocupado` remains set and `idx_libres` stays empty, so `find_free` cannot
return that station; the arrival processed next (iteration 3, time 70,
before the ValidationComplete at time 160) is indeed rejected, not assigned
to the freed-by-the-claim station. -/
theorem evs_C1_contraejemplo :
    (filaDemo 2).evento = EtiquetaEvento.finCarga
    ∧ (servidorEn estadoDemoTrasFinCarga.servidores 0).etapa = none
    ∧ (servidorEn estadoDemoTrasFinCarga.servidores 0).fin_carga = none
    ∧ (servidorEn estadoDemoTrasFinCarga.servidores 0).duracion_carga = none
    ∧ (servidorEn estadoDemoTrasFinCarga.servidores 0).ocupado = true
    ∧ idxLibres estadoDemoTrasFinCarga.servidores = []
    ∧ (filaDemo 3).evento = EtiquetaEvento.llegadaDispositivo
    ∧ (filaDemo 3).rechazadas = 1
    ∧ (filaDemo 2).rechazadas = 0 := by decide

/-- C1 witness for the amended claim at a concrete input. -/
theorem evs_C1_witness :
    (servidorEn (procesar Pdemo (estadoInicial Pdemo)
        ⟨0, TipoEvento.endCharge 0 TipoDispositivo.usbC 0, 5⟩ []).servidores 0).ocupado
      = (servidorEn (estadoInicial Pdemo).servidores 0).ocupado
    ∧ (servidorEn (procesar Pdemo (estadoInicial Pdemo)
        ⟨0, TipoEvento.endValidation 0 TipoDispositivo.usbC 0, 5⟩ []).servidores 0).ocupado
      = false :=
  ⟨((evs_C1 Pdemo (estadoInicial Pdemo)
      ⟨0, TipoEvento.endCharge 0 TipoDispositivo.usbC 0, 5⟩ [] 0 TipoDispositivo.usbC 0).1
      rfl).2.2.2.1,
   (evs_C1 Pdemo (estadoInicial Pdemo)
      ⟨0, TipoEvento.endValidation 0 TipoDispositivo.usbC 0, 5⟩ [] 0 TipoDispositivo.usbC 0).2
      rfl⟩

end

/-- C5 (amended): the form validation rejects, with a descriptive error and
before any simulation state is created, exactly the inputs with a negative
time horizon, event budget, validation duration or mean inter-arrival time,
a negative probability, or probabilities off 1 by more than 1e-6; a ZERO
mean inter-arrival time and a non-positive station count are NOT rejected. -/
theorem evs_C5 (T_max : ℚ) (N_max : ℤ) (media_interarribo tiempo_validacion
    p_usb_c p_lightning p_microusb : ℚ) (n_servidores : ℤ)
    (rnd : ℕ → ℚ) (log : ℚ → ℚ) :
    (validarFormulario T_max N_max media_interarribo tiempo_validacion
        p_usb_c p_lightning p_microusb n_servidores = none
      ↔ (|p_usb_c + p_lightning + p_microusb - 1| ≤ 1/1000000
          ∧ 0 ≤ p_usb_c ∧ 0 ≤ p_lightning ∧ 0 ≤ p_microusb
          ∧ 0 ≤ T_max ∧ 0 ≤ N_max ∧ 0 ≤ tiempo_validacion ∧ 0 ≤ media_interarribo))
    ∧ (∀ e, validarFormulario T_max N_max media_interarribo tiempo_validacion
          p_usb_c p_lightning p_microusb n_servidores = some e →
        indexPost T_max N_max media_interarribo tiempo_validacion
          p_usb_c p_lightning p_microusb n_servidores rnd log = Except.error e) := by
  constructor
  · simp only [validarFormulario]
    split_ifs with h2 h1
    · apply iff_of_false (by simp)
      rintro ⟨_, _, _, _, hT, hN, htv, hm⟩
      rcases h2 with h | h | h | h
      · linarith
      · omega
      · linarith
      · linarith
    · apply iff_of_false (by simp)
      rintro ⟨habs, hp1, hp2, hp3, _, _, _, _⟩
      rcases h1 with h | h | h | h
      · linarith
      · linarith
      · linarith
      · linarith
    · apply iff_of_true rfl
      push_neg at h2 h1
      obtain ⟨hT, hN, htv, hm⟩ := h2
      obtain ⟨habs, hp1, hp2, hp3⟩ := h1
      exact ⟨habs, hp1, hp2, hp3, hT, hN, htv, hm⟩
  · intro e he
    unfold indexPost
    rw [he]

section
attribute [local semireducible] Rat.add Rat.mul Rat.sub Rat.inv
set_option maxRecDepth 10000

/-- C5 counterexample to the claim as stated: a configuration with a
non-positive (zero) mean inter-arrival time AND a non-positive (zero)
station count passes the validation (`none`: no error message) and the
simulation is executed on it, returning a result, not a validation error. -/
theorem evs_C5_contraejemplo :
    validarFormulario 100 10 0 2 (9/20) (1/4) (3/10) 0 = none
    ∧ indexPost 100 10 0 2 (9/20) (1/4) (3/10) 0 (fun _ => 0) (fun _ => 0)
        = Except.ok (simular_puestos_carga
            { T_max := 100, N_max := 10, media_interarribo := 0,
              p_usb_c := 9/20, p_lightning := 1/4, p_microusb := 3/10,
              tiempo_validacion := 2, n_servidores := 0,
              rnd := fun _ => 0, log := fun _ => 0 }) := by
  constructor
  · decide
  · rfl

/-- C5 witness for the amended claim at a concrete rejected input. -/
theorem evs_C5_witness :
    indexPost (-1) 10 13 2 (9/20) (1/4) (3/10) 8 (fun _ => 0) (fun _ => 0)
      = Except.error MensajeError.valoresNegativos :=
  (evs_C5 (-1) 10 13 2 (9/20) (1/4) (3/10) 8 (fun _ => 0) (fun _ => 0)).2
    MensajeError.valoresNegativos (by decide)

end
